import Mathlib

/-!
Shallow embedding of `kernels/volk/volk_32f_stddev_and_mean_32f_x2.h`.

The C kernel computes the mean and population standard deviation of a buffer
of `float` samples in one pass, in five variants: a generic scalar reference,
an SSE variant (4 samples per loop iteration), an SSE4.1 variant (16 samples
per outer iteration via four `_mm_dp_ps` dot products OR-merged into disjoint
lanes), and aligned/unaligned AVX variants (32 samples per outer iteration via
four `_mm256_dp_ps`).

Embedding choices:
* `float` arithmetic is embedded as exact rational (`ℚ`) arithmetic; the
  operation order of the C code is preserved, so reassociation effects that
  in C produce rounding differences here produce literal equalities.
* A memory read `*aPtr` is a fallible `l[i]?` lookup; every variant therefore
  returns `Option`, and `none` models an out-of-bounds read.
* `sqrtf` is kept symbolic: `sqrtF x` is `SVal.nan` for negative `x` (the C
  domain error producing NaN) and the symbol `SVal.sqrtOf x` otherwise.
  `SVal.denotes` interprets these symbols in `ℝ`.
* The bitwise `_mm_or_ps` / `_mm256_or_ps` merge of dot-product results is
  exact only when at most one operand of each lane is non-zero (the bit
  pattern of +0.0 is all zeroes); `orQ` returns `none` in the overlapping
  case, so the embedding fails loudly if lanes were not disjoint.
* Alignment of loads (`_mm_load_ps` vs `_mm256_loadu_ps`) is a memory-layout
  property with no observable effect on the values read; the aligned and
  unaligned AVX variants are embedded with the same reads.
-/

namespace Volk

/-- Symbolic value of the `stddev` output: a plain float value written
without going through `sqrtf` (`q`), the nonnegative square root of a
rational (`sqrtOf`), or the NaN produced by `sqrtf` on a negative input. -/
inductive SVal where
  | q : ℚ → SVal
  | sqrtOf : ℚ → SVal
  | nan : SVal
deriving DecidableEq

/-- Interpretation of an `SVal` as a real number; `nan` denotes nothing. -/
def SVal.denotes : SVal → ℝ → Prop
  | SVal.q x, r => r = (x : ℝ)
  | SVal.sqrtOf x, r => 0 ≤ x ∧ r = Real.sqrt (x : ℝ)
  | SVal.nan, _ => False

/-- Embedding of C `sqrtf`: a negative argument is a domain error and
yields NaN; otherwise the (symbolic) square root. No clamping to zero. -/
def sqrtF (x : ℚ) : SVal := if x < 0 then SVal.nan else SVal.sqrtOf x

/-- The two outputs `*stddev` and `*mean`, in the order the C code writes
them. -/
structure Out where
  stddev : SVal
  mean : ℚ
deriving DecidableEq

/-- The scalar accumulation loop shared by the generic kernel and every
tail loop: starting at index `i`, run `k` iterations of
`returnValue += (*aPtr) * (*aPtr); newMean += *aPtr++;` on accumulators
`(sum, sq) = (newMean, returnValue)`. An out-of-bounds read gives `none`. -/
def scalarAccum (buf : List ℚ) : ℕ → ℕ → ℚ → ℚ → Option (ℚ × ℚ)
  | _, 0, sum, sq => some (sum, sq)
  | i, k + 1, sum, sq =>
    match buf[i]? with
    | none => none
    | some x => scalarAccum buf (i + 1) k (sum + x) (sq + x * x)

/-- The common finalization (lines 403-406 of the C source):
`newMean /= num_points; returnValue /= num_points;
returnValue -= newMean*newMean; returnValue = sqrtf(returnValue);`. -/
def finalize (sum sq : ℚ) (n : ℕ) : Out :=
  let newMean := sum / (n : ℚ)
  let variance := sq / (n : ℚ) - newMean * newMean
  ⟨sqrtF variance, newMean⟩

/-- Embedding of `volk_32f_stddev_and_mean_32f_x2_generic`: scalar reference. For
`num_points = 0` the initializers `returnValue = 0; newMean = 0` are written
back unchanged (no division, no `sqrtf`). -/
def volk_32f_stddev_and_mean_32f_x2_generic (buf : List ℚ) (n : ℕ) :
    Option Out :=
  if n = 0 then some ⟨SVal.q 0, 0⟩
  else (scalarAccum buf 0 n 0 0).map fun p => finalize p.1 p.2 n

/-- The contiguous segment of `k` samples starting at index `i`. -/
def seg (buf : List ℚ) (i k : ℕ) : List ℚ := (buf.drop i).take k

/-- Exact sum of the segment of `k` samples starting at index `i`. -/
def sumSeg (buf : List ℚ) (i k : ℕ) : ℚ := (seg buf i k).sum

/-- Exact sum of squares of the segment of `k` samples starting at `i`. -/
def sqSumSeg (buf : List ℚ) (i k : ℕ) : ℚ :=
  ((seg buf i k).map fun x => x * x).sum

theorem seg_zero (buf : List ℚ) (i : ℕ) : seg buf i 0 = [] := rfl

theorem seg_succ (buf : List ℚ) (i k : ℕ) (h : i < buf.length) :
    seg buf i (k + 1) = buf[i] :: seg buf (i + 1) k := by
  unfold seg
  rw [List.drop_eq_getElem_cons h]
  rfl

theorem sumSeg_zero (buf : List ℚ) (i : ℕ) : sumSeg buf i 0 = 0 := rfl

theorem sqSumSeg_zero (buf : List ℚ) (i : ℕ) : sqSumSeg buf i 0 = 0 := rfl

theorem sumSeg_succ (buf : List ℚ) (i k : ℕ) (h : i < buf.length) :
    sumSeg buf i (k + 1) = buf[i] + sumSeg buf (i + 1) k := by
  unfold sumSeg
  rw [seg_succ buf i k h, List.sum_cons]

theorem sqSumSeg_succ (buf : List ℚ) (i k : ℕ) (h : i < buf.length) :
    sqSumSeg buf i (k + 1) = buf[i] * buf[i] + sqSumSeg buf (i + 1) k := by
  unfold sqSumSeg
  rw [seg_succ buf i k h, List.map_cons, List.sum_cons]

theorem seg_add (buf : List ℚ) (i a b : ℕ) :
    seg buf i (a + b) = seg buf i a ++ seg buf (i + a) b := by
  unfold seg
  rw [List.take_add, List.drop_drop]

theorem sumSeg_add (buf : List ℚ) (i a b : ℕ) :
    sumSeg buf i (a + b) = sumSeg buf i a + sumSeg buf (i + a) b := by
  unfold sumSeg
  rw [seg_add, List.sum_append]

theorem sqSumSeg_add (buf : List ℚ) (i a b : ℕ) :
    sqSumSeg buf i (a + b) = sqSumSeg buf i a + sqSumSeg buf (i + a) b := by
  unfold sqSumSeg
  rw [seg_add, List.map_append, List.sum_append]

/-- The scalar loop accumulates exactly the segment it walks over. -/
theorem scalarAccum_spec (buf : List ℚ) :
    ∀ (k i : ℕ) (sum sq : ℚ), i + k ≤ buf.length →
      scalarAccum buf i k sum sq
        = some (sum + sumSeg buf i k, sq + sqSumSeg buf i k) := by
  intro k
  induction k with
  | zero =>
    intro i sum sq _
    simp [scalarAccum, sumSeg_zero, sqSumSeg_zero]
  | succ k ih =>
    intro i sum sq h
    have hi : i < buf.length := by omega
    have hrec : i + 1 + k ≤ buf.length := by omega
    rw [scalarAccum, List.getElem?_eq_getElem hi]
    simp only [ih (i + 1) (sum + buf[i]) (sq + buf[i] * buf[i]) hrec,
      sumSeg_succ buf i k hi, sqSumSeg_succ buf i k hi]
    ring_nf

/-- The generic kernel's accumulators after the loop hold the exact sum and
sum of squares of the first `n` samples. -/
theorem generic_spec (buf : List ℚ) (n : ℕ) (hn : n ≠ 0)
    (h : n ≤ buf.length) :
    volk_32f_stddev_and_mean_32f_x2_generic buf n
      = some (finalize (sumSeg buf 0 n) (sqSumSeg buf 0 n) n) := by
  unfold volk_32f_stddev_and_mean_32f_x2_generic
  rw [if_neg hn, scalarAccum_spec buf n 0 0 0 (by omega)]
  simp [Option.map]

theorem sumSeg_one (buf : List ℚ) (j : ℕ) (h : j < buf.length) :
    sumSeg buf j 1 = buf[j] := by
  have e := sumSeg_succ buf j 0 h
  simpa [sumSeg_zero] using e

theorem sqSumSeg_one (buf : List ℚ) (j : ℕ) (h : j < buf.length) :
    sqSumSeg buf j 1 = buf[j] * buf[j] := by
  have e := sqSumSeg_succ buf j 0 h
  simpa [sqSumSeg_zero] using e

theorem sumSeg_four (buf : List ℚ) (i : ℕ) :
    sumSeg buf i 4 = sumSeg buf i 1 + sumSeg buf (i + 1) 1
      + sumSeg buf (i + 2) 1 + sumSeg buf (i + 3) 1 := by
  rw [show (4 : ℕ) = 1 + 1 + 1 + 1 from by norm_num,
    sumSeg_add buf i (1 + 1 + 1) 1, sumSeg_add buf i (1 + 1) 1,
    sumSeg_add buf i 1 1]

theorem sqSumSeg_four (buf : List ℚ) (i : ℕ) :
    sqSumSeg buf i 4 = sqSumSeg buf i 1 + sqSumSeg buf (i + 1) 1
      + sqSumSeg buf (i + 2) 1 + sqSumSeg buf (i + 3) 1 := by
  rw [show (4 : ℕ) = 1 + 1 + 1 + 1 from by norm_num,
    sqSumSeg_add buf i (1 + 1 + 1) 1, sqSumSeg_add buf i (1 + 1) 1,
    sqSumSeg_add buf i 1 1]

theorem sumSeg_split (buf : List ℚ) (m n : ℕ) (h : m ≤ n) :
    sumSeg buf 0 n = sumSeg buf 0 m + sumSeg buf m (n - m) := by
  have e := sumSeg_add buf 0 m (n - m)
  rw [Nat.add_sub_cancel' h] at e
  simpa using e

theorem sqSumSeg_split (buf : List ℚ) (m n : ℕ) (h : m ≤ n) :
    sqSumSeg buf 0 n = sqSumSeg buf 0 m + sqSumSeg buf m (n - m) := by
  have e := sqSumSeg_add buf 0 m (n - m)
  rw [Nat.add_sub_cancel' h] at e
  simpa using e

/-- A 4-lane SSE register (`__m128`). -/
structure V4 where
  x0 : ℚ
  x1 : ℚ
  x2 : ℚ
  x3 : ℚ
deriving DecidableEq

/-- Intrinsic `_mm_setzero_ps`. -/
def zero4 : V4 := ⟨0, 0, 0, 0⟩

/-- Intrinsic `_mm_add_ps`. -/
def add4 (u v : V4) : V4 := ⟨u.x0 + v.x0, u.x1 + v.x1, u.x2 + v.x2, u.x3 + v.x3⟩

/-- Intrinsic `_mm_mul_ps`. -/
def mul4 (u v : V4) : V4 := ⟨u.x0 * v.x0, u.x1 * v.x1, u.x2 * v.x2, u.x3 * v.x3⟩

/-- Horizontal reduction of a 4-lane accumulator in the order of the C code
(`meanBuffer[0]`, then `+= meanBuffer[1]`, ...). -/
def hsum4 (v : V4) : ℚ := v.x0 + v.x1 + v.x2 + v.x3

/-- Intrinsic `_mm_load_ps(aPtr)`: read four consecutive samples; out of bounds is
`none`. -/
def load4 (buf : List ℚ) (i : ℕ) : Option V4 :=
  match buf[i]?, buf[i + 1]?, buf[i + 2]?, buf[i + 3]? with
  | some a, some b, some c, some d => some ⟨a, b, c, d⟩
  | _, _, _, _ => none

/-- Number of full 4-sample groups in the SSE variant:
`const unsigned int quarterPoints = num_points / 4;`. -/
def quarterPoints (n : ℕ) : ℕ := n / 4

/-- The SSE vector loop: `k` iterations, each loading 4 samples at `aPtr`,
adding them into `accumulator` lane-wise and their squares into
`squareAccumulator`, then advancing `aPtr` by 4. -/
def sseLoop (buf : List ℚ) : ℕ → ℕ → V4 → V4 → Option (V4 × V4)
  | _, 0, acc, sqAcc => some (acc, sqAcc)
  | i, k + 1, acc, sqAcc =>
    match load4 buf i with
    | none => none
    | some aVal =>
      sseLoop buf (i + 4) k (add4 acc aVal) (add4 sqAcc (mul4 aVal aVal))

/-- The SSE variant's scalar totals `(newMean, returnValue)` after the
vector loop, horizontal reduction, and the scalar tail loop. -/
def sseTotals (buf : List ℚ) (n : ℕ) : Option (ℚ × ℚ) :=
  match sseLoop buf 0 (quarterPoints n) zero4 zero4 with
  | none => none
  | some (acc, sqAcc) =>
    scalarAccum buf (quarterPoints n * 4) (n - quarterPoints n * 4)
      (hsum4 acc) (hsum4 sqAcc)

/-- Embedding of `volk_32f_stddev_and_mean_32f_x2_a_sse`. -/
def volk_32f_stddev_and_mean_32f_x2_a_sse (buf : List ℚ) (n : ℕ) :
    Option Out :=
  if n = 0 then some ⟨SVal.q 0, 0⟩
  else (sseTotals buf n).map fun p => finalize p.1 p.2 n

theorem hsum4_zero4 : hsum4 zero4 = 0 := by
  simp [hsum4, zero4]

theorem hsum4_add4 (u v : V4) : hsum4 (add4 u v) = hsum4 u + hsum4 v := by
  simp only [hsum4, add4]
  ring

theorem load4_spec (buf : List ℚ) (i : ℕ) (h : i + 4 ≤ buf.length) :
    load4 buf i = some ⟨buf[i], buf[i + 1], buf[i + 2], buf[i + 3]⟩ := by
  have h0 : i < buf.length := by omega
  have h1 : i + 1 < buf.length := by omega
  have h2 : i + 2 < buf.length := by omega
  have h3 : i + 3 < buf.length := by omega
  simp [load4, List.getElem?_eq_getElem h0, List.getElem?_eq_getElem h1,
    List.getElem?_eq_getElem h2, List.getElem?_eq_getElem h3]

/-- Each SSE loop iteration consumes exactly 4 samples; after `k` iterations
the lane totals are the exact sums over the `4*k` consumed samples. -/
theorem sseLoop_spec (buf : List ℚ) :
    ∀ (k i : ℕ) (acc sqAcc : V4), i + 4 * k ≤ buf.length →
      ∃ acc' sqAcc', sseLoop buf i k acc sqAcc = some (acc', sqAcc')
        ∧ hsum4 acc' = hsum4 acc + sumSeg buf i (4 * k)
        ∧ hsum4 sqAcc' = hsum4 sqAcc + sqSumSeg buf i (4 * k) := by
  intro k
  induction k with
  | zero =>
    intro i acc sqAcc _
    exact ⟨acc, sqAcc, rfl, by simp [sumSeg_zero], by simp [sqSumSeg_zero]⟩
  | succ k ih =>
    intro i acc sqAcc h
    have h4 : i + 4 ≤ buf.length := by omega
    have h0 : i < buf.length := by omega
    have h1 : i + 1 < buf.length := by omega
    have h2 : i + 2 < buf.length := by omega
    have h3 : i + 3 < buf.length := by omega
    have hrec : (i + 4) + 4 * k ≤ buf.length := by omega
    obtain ⟨acc', sqAcc', hloop, hm, hs⟩ :=
      ih (i + 4) (add4 acc ⟨buf[i], buf[i + 1], buf[i + 2], buf[i + 3]⟩)
        (add4 sqAcc (mul4 ⟨buf[i], buf[i + 1], buf[i + 2], buf[i + 3]⟩
          ⟨buf[i], buf[i + 1], buf[i + 2], buf[i + 3]⟩)) hrec
    refine ⟨acc', sqAcc', ?_, ?_, ?_⟩
    · rw [sseLoop, load4_spec buf i h4]
      exact hloop
    · rw [hm, hsum4_add4,
        show 4 * (k + 1) = 4 + 4 * k from by ring, sumSeg_add buf i 4 (4 * k),
        sumSeg_four buf i, sumSeg_one buf i h0, sumSeg_one buf (i + 1) h1,
        sumSeg_one buf (i + 2) h2, sumSeg_one buf (i + 3) h3]
      simp only [hsum4]
      ring
    · rw [hs, hsum4_add4,
        show 4 * (k + 1) = 4 + 4 * k from by ring,
        sqSumSeg_add buf i 4 (4 * k), sqSumSeg_four buf i,
        sqSumSeg_one buf i h0, sqSumSeg_one buf (i + 1) h1,
        sqSumSeg_one buf (i + 2) h2, sqSumSeg_one buf (i + 3) h3]
      simp only [hsum4, mul4]
      ring

/-- The SSE variant's totals are the exact sum and sum of squares of the
first `n` samples: the vector loop covers the first `4*(n/4)`, the scalar
tail the remaining `n mod 4`. -/
theorem sseTotals_spec (buf : List ℚ) (n : ℕ) (h : n ≤ buf.length) :
    sseTotals buf n = some (sumSeg buf 0 n, sqSumSeg buf 0 n) := by
  have hk : quarterPoints n * 4 ≤ n := by
    unfold quarterPoints
    exact Nat.div_mul_le_self n 4
  obtain ⟨acc', sqAcc', hloop, hm, hs⟩ :=
    sseLoop_spec buf (quarterPoints n) 0 zero4 zero4 (by omega)
  unfold sseTotals
  rw [hloop]
  show scalarAccum buf (quarterPoints n * 4) (n - quarterPoints n * 4)
      (hsum4 acc') (hsum4 sqAcc') = _
  rw [scalarAccum_spec buf (n - quarterPoints n * 4) (quarterPoints n * 4)
      _ _ (by omega),
    hm, hs, hsum4_zero4, sumSeg_split buf (quarterPoints n * 4) n hk,
    sqSumSeg_split buf (quarterPoints n * 4) n hk,
    show 4 * quarterPoints n = quarterPoints n * 4 from Nat.mul_comm 4 _]
  norm_num

/-- The all-lanes self dot product computed by `_mm_dp_ps(v, v, 0xF_)`
(high mask nibble `0xF`: all four products participate). -/
def dotSq4 (v : V4) : ℚ := v.x0 * v.x0 + v.x1 * v.x1 + v.x2 * v.x2 + v.x3 * v.x3

/-- Intrinsic `_mm_dp_ps(v, v, 0xF· )` with low mask nibble `1 <<< lane`: the dot
product is broadcast into lane `lane`, every other lane is set to +0.0. -/
def dp4 (v : V4) (lane : ℕ) : V4 :=
  ⟨if lane = 0 then dotSq4 v else 0, if lane = 1 then dotSq4 v else 0,
    if lane = 2 then dotSq4 v else 0, if lane = 3 then dotSq4 v else 0⟩

/-- Bitwise OR of two float lanes. The bit pattern of +0.0 is all zeroes, so
the OR is exact when either operand is 0; two non-zero operands produce a
garbage bit pattern, embedded as `none`. -/
def orQ (a b : ℚ) : Option ℚ :=
  if a = 0 then some b else if b = 0 then some a else none

/-- Intrinsic `_mm_or_ps`, lane-wise. -/
def or4 (u v : V4) : Option V4 :=
  match orQ u.x0 v.x0, orQ u.x1 v.x1, orQ u.x2 v.x2, orQ u.x3 v.x3 with
  | some a, some b, some c, some d => some ⟨a, b, c, d⟩
  | _, _, _, _ => none

/-- Number of full 16-sample groups in the SSE4.1 variant:
`const unsigned int sixteenthPoints = num_points / 16;`. -/
def sixteenthPoints (n : ℕ) : ℕ := n / 16

/-- The SSE4.1 vector loop: per iteration, four 4-wide loads at offsets
0, 4, 8, 12; each block's self dot product is placed in lane 0, 1, 2, 3
respectively (`0xF1`, `0xF2`, `0xF4`, `0xF8`), the four results are
OR-merged and added into `squareAccumulator`, while the samples themselves
are added lane-wise into `accumulator`. -/
def sse41Loop (buf : List ℚ) : ℕ → ℕ → V4 → V4 → Option (V4 × V4)
  | _, 0, acc, sqAcc => some (acc, sqAcc)
  | i, k + 1, acc, sqAcc =>
    match load4 buf i, load4 buf (i + 4), load4 buf (i + 8),
        load4 buf (i + 12) with
    | some aVal1, some aVal2, some aVal3, some aVal4 =>
      let cVal1 := dp4 aVal1 0
      let cVal2 := dp4 aVal2 1
      let cVal3 := dp4 aVal3 2
      let cVal4 := dp4 aVal4 3
      let acc4 := add4 (add4 (add4 (add4 acc aVal1) aVal2) aVal3) aVal4
      match or4 cVal1 cVal2, or4 cVal3 cVal4 with
      | some c12, some c34 =>
        match or4 c12 c34 with
        | some c => sse41Loop buf (i + 16) k acc4 (add4 sqAcc c)
        | none => none
      | _, _ => none
    | _, _, _, _ => none

/-- The SSE4.1 variant's scalar totals after vector loop, horizontal
reduction and scalar tail. -/
def sse41Totals (buf : List ℚ) (n : ℕ) : Option (ℚ × ℚ) :=
  match sse41Loop buf 0 (sixteenthPoints n) zero4 zero4 with
  | none => none
  | some (acc, sqAcc) =>
    scalarAccum buf (sixteenthPoints n * 16) (n - sixteenthPoints n * 16)
      (hsum4 acc) (hsum4 sqAcc)

/-- Embedding of `volk_32f_stddev_and_mean_32f_x2_a_sse4_1`. -/
def volk_32f_stddev_and_mean_32f_x2_a_sse4_1 (buf : List ℚ) (n : ℕ) :
    Option Out :=
  if n = 0 then some ⟨SVal.q 0, 0⟩
  else (sse41Totals buf n).map fun p => finalize p.1 p.2 n

theorem orQ_zero_left (b : ℚ) : orQ 0 b = some b := by
  simp [orQ]

theorem orQ_zero_right (a : ℚ) : orQ a 0 = some a := by
  rcases eq_or_ne a 0 with h | h <;> simp [orQ, h]

/-- Masks `0xF1` and `0xF2` put the two dot products in lanes 0 and 1:
the OR merge is exact. -/
theorem or4_dp12 (v1 v2 : V4) :
    or4 (dp4 v1 0) (dp4 v2 1) = some ⟨dotSq4 v1, dotSq4 v2, 0, 0⟩ := by
  simp [or4, dp4, orQ_zero_left, orQ_zero_right]

/-- Masks `0xF4` and `0xF8` put the two dot products in lanes 2 and 3:
the OR merge is exact. -/
theorem or4_dp34 (v3 v4 : V4) :
    or4 (dp4 v3 2) (dp4 v4 3) = some ⟨0, 0, dotSq4 v3, dotSq4 v4⟩ := by
  simp [or4, dp4, orQ_zero_left, orQ_zero_right]

/-- The supports `{0,1}` and `{2,3}` are disjoint: the final OR merge is
exact and yields all four dot products in separate lanes. -/
theorem or4_combine (a b c d : ℚ) :
    or4 ⟨a, b, 0, 0⟩ ⟨0, 0, c, d⟩ = some ⟨a, b, c, d⟩ := by
  simp [or4, orQ_zero_left, orQ_zero_right]

theorem sumSeg_sixteen (buf : List ℚ) (i : ℕ) :
    sumSeg buf i 16 = sumSeg buf i 4 + sumSeg buf (i + 4) 4
      + sumSeg buf (i + 8) 4 + sumSeg buf (i + 12) 4 := by
  rw [show (16 : ℕ) = 4 + 4 + 4 + 4 from by norm_num,
    sumSeg_add buf i (4 + 4 + 4) 4, sumSeg_add buf i (4 + 4) 4,
    sumSeg_add buf i 4 4]

theorem sqSumSeg_sixteen (buf : List ℚ) (i : ℕ) :
    sqSumSeg buf i 16 = sqSumSeg buf i 4 + sqSumSeg buf (i + 4) 4
      + sqSumSeg buf (i + 8) 4 + sqSumSeg buf (i + 12) 4 := by
  rw [show (16 : ℕ) = 4 + 4 + 4 + 4 from by norm_num,
    sqSumSeg_add buf i (4 + 4 + 4) 4, sqSumSeg_add buf i (4 + 4) 4,
    sqSumSeg_add buf i 4 4]

theorem hsum4_load (buf : List ℚ) (i : ℕ) (h : i + 4 ≤ buf.length) :
    hsum4 ⟨buf[i], buf[i + 1], buf[i + 2], buf[i + 3]⟩ = sumSeg buf i 4 := by
  have h0 : i < buf.length := by omega
  have h1 : i + 1 < buf.length := by omega
  have h2 : i + 2 < buf.length := by omega
  have h3 : i + 3 < buf.length := by omega
  rw [sumSeg_four buf i, sumSeg_one buf i h0, sumSeg_one buf (i + 1) h1,
    sumSeg_one buf (i + 2) h2, sumSeg_one buf (i + 3) h3]
  simp only [hsum4]

theorem dotSq4_load (buf : List ℚ) (i : ℕ) (h : i + 4 ≤ buf.length) :
    dotSq4 ⟨buf[i], buf[i + 1], buf[i + 2], buf[i + 3]⟩
      = sqSumSeg buf i 4 := by
  have h0 : i < buf.length := by omega
  have h1 : i + 1 < buf.length := by omega
  have h2 : i + 2 < buf.length := by omega
  have h3 : i + 3 < buf.length := by omega
  rw [sqSumSeg_four buf i, sqSumSeg_one buf i h0, sqSumSeg_one buf (i + 1) h1,
    sqSumSeg_one buf (i + 2) h2, sqSumSeg_one buf (i + 3) h3]
  simp only [dotSq4]

/-- Each SSE4.1 outer iteration consumes exactly 16 samples; after `k`
iterations the lane totals are the exact sums over the `16*k` consumed
samples (in particular the sum of all lanes of `squareAccumulator` is the
sum of squares of every consumed sample). -/
theorem sse41Loop_spec (buf : List ℚ) :
    ∀ (k i : ℕ) (acc sqAcc : V4), i + 16 * k ≤ buf.length →
      ∃ acc' sqAcc', sse41Loop buf i k acc sqAcc = some (acc', sqAcc')
        ∧ hsum4 acc' = hsum4 acc + sumSeg buf i (16 * k)
        ∧ hsum4 sqAcc' = hsum4 sqAcc + sqSumSeg buf i (16 * k) := by
  intro k
  induction k with
  | zero =>
    intro i acc sqAcc _
    exact ⟨acc, sqAcc, rfl, by simp [sumSeg_zero], by simp [sqSumSeg_zero]⟩
  | succ k ih =>
    intro i acc sqAcc h
    have ha : i + 4 ≤ buf.length := by omega
    have hb : (i + 4) + 4 ≤ buf.length := by omega
    have hc : (i + 8) + 4 ≤ buf.length := by omega
    have hd : (i + 12) + 4 ≤ buf.length := by omega
    have hrec : (i + 16) + 16 * k ≤ buf.length := by omega
    obtain ⟨acc', sqAcc', hloop, hm, hs⟩ :=
      ih (i + 16)
        (add4 (add4 (add4 (add4 acc
          ⟨buf[i], buf[i + 1], buf[i + 2], buf[i + 3]⟩)
          ⟨buf[i + 4], buf[i + 4 + 1], buf[i + 4 + 2], buf[i + 4 + 3]⟩)
          ⟨buf[i + 8], buf[i + 8 + 1], buf[i + 8 + 2], buf[i + 8 + 3]⟩)
          ⟨buf[i + 12], buf[i + 12 + 1], buf[i + 12 + 2], buf[i + 12 + 3]⟩)
        (add4 sqAcc
          ⟨dotSq4 ⟨buf[i], buf[i + 1], buf[i + 2], buf[i + 3]⟩,
            dotSq4 ⟨buf[i + 4], buf[i + 4 + 1], buf[i + 4 + 2],
              buf[i + 4 + 3]⟩,
            dotSq4 ⟨buf[i + 8], buf[i + 8 + 1], buf[i + 8 + 2],
              buf[i + 8 + 3]⟩,
            dotSq4 ⟨buf[i + 12], buf[i + 12 + 1], buf[i + 12 + 2],
              buf[i + 12 + 3]⟩⟩)
        hrec
    refine ⟨acc', sqAcc', ?_, ?_, ?_⟩
    · rw [sse41Loop, load4_spec buf i ha, load4_spec buf (i + 4) hb,
        load4_spec buf (i + 8) hc, load4_spec buf (i + 12) hd]
      simp only [or4_dp12, or4_dp34, or4_combine]
      exact hloop
    · rw [hm]
      simp only [hsum4_add4]
      rw [hsum4_load buf i ha, hsum4_load buf (i + 4) hb,
        hsum4_load buf (i + 8) hc, hsum4_load buf (i + 12) hd,
        show 16 * (k + 1) = 16 + 16 * k from by ring,
        sumSeg_add buf i 16 (16 * k), sumSeg_sixteen buf i]
      ring
    · rw [hs]
      simp only [hsum4_add4, hsum4, add4]
      rw [dotSq4_load buf i ha, dotSq4_load buf (i + 4) hb,
        dotSq4_load buf (i + 8) hc, dotSq4_load buf (i + 12) hd,
        show 16 * (k + 1) = 16 + 16 * k from by ring,
        sqSumSeg_add buf i 16 (16 * k), sqSumSeg_sixteen buf i]
      ring

/-- The SSE4.1 variant's totals are the exact sum and sum of squares of the
first `n` samples. -/
theorem sse41Totals_spec (buf : List ℚ) (n : ℕ) (h : n ≤ buf.length) :
    sse41Totals buf n = some (sumSeg buf 0 n, sqSumSeg buf 0 n) := by
  have hk : sixteenthPoints n * 16 ≤ n := by
    unfold sixteenthPoints
    exact Nat.div_mul_le_self n 16
  obtain ⟨acc', sqAcc', hloop, hm, hs⟩ :=
    sse41Loop_spec buf (sixteenthPoints n) 0 zero4 zero4 (by omega)
  unfold sse41Totals
  rw [hloop]
  show scalarAccum buf (sixteenthPoints n * 16) (n - sixteenthPoints n * 16)
      (hsum4 acc') (hsum4 sqAcc') = _
  rw [scalarAccum_spec buf (n - sixteenthPoints n * 16)
      (sixteenthPoints n * 16) _ _ (by omega),
    hm, hs, hsum4_zero4, sumSeg_split buf (sixteenthPoints n * 16) n hk,
    sqSumSeg_split buf (sixteenthPoints n * 16) n hk,
    show 16 * sixteenthPoints n = sixteenthPoints n * 16 from
      Nat.mul_comm 16 _]
  norm_num

/-- An 8-lane AVX register (`__m256`). -/
structure V8 where
  x0 : ℚ
  x1 : ℚ
  x2 : ℚ
  x3 : ℚ
  x4 : ℚ
  x5 : ℚ
  x6 : ℚ
  x7 : ℚ
deriving DecidableEq

/-- Intrinsic `_mm256_setzero_ps`. -/
def zero8 : V8 := ⟨0, 0, 0, 0, 0, 0, 0, 0⟩

/-- Intrinsic `_mm256_add_ps`. -/
def add8 (u v : V8) : V8 :=
  ⟨u.x0 + v.x0, u.x1 + v.x1, u.x2 + v.x2, u.x3 + v.x3,
    u.x4 + v.x4, u.x5 + v.x5, u.x6 + v.x6, u.x7 + v.x7⟩

/-- Horizontal reduction of an 8-lane accumulator in the order of the C code
(`meanBuffer[0]`, then `+= meanBuffer[1]`, ..., `+= meanBuffer[7]`). -/
def hsum8 (v : V8) : ℚ :=
  v.x0 + v.x1 + v.x2 + v.x3 + v.x4 + v.x5 + v.x6 + v.x7

/-- Intrinsics `_mm256_load_ps` / `_mm256_loadu_ps`: read eight consecutive samples.
Alignment affects only which instruction is legal, not the values read. -/
def load8 (buf : List ℚ) (i : ℕ) : Option V8 :=
  match buf[i]?, buf[i + 1]?, buf[i + 2]?, buf[i + 3]?,
      buf[i + 4]?, buf[i + 4 + 1]?, buf[i + 4 + 2]?, buf[i + 4 + 3]? with
  | some a, some b, some c, some d, some e, some f, some g, some h =>
    some ⟨a, b, c, d, e, f, g, h⟩
  | _, _, _, _, _, _, _, _ => none

/-- Dot product of the low 128-bit half of `_mm256_dp_ps(v, v, 0xF_)`. -/
def dotSqLo (v : V8) : ℚ :=
  v.x0 * v.x0 + v.x1 * v.x1 + v.x2 * v.x2 + v.x3 * v.x3

/-- Dot product of the high 128-bit half of `_mm256_dp_ps(v, v, 0xF_)`. -/
def dotSqHi (v : V8) : ℚ :=
  v.x4 * v.x4 + v.x5 * v.x5 + v.x6 * v.x6 + v.x7 * v.x7

/-- Intrinsic `_mm256_dp_ps(v, v, 0xF· )` with low mask nibble `1 <<< lane`:
per 128-bit half, the half's four-lane self dot product is broadcast into
lane `lane` of that half; all other lanes are +0.0. -/
def dp8 (v : V8) (lane : ℕ) : V8 :=
  ⟨if lane = 0 then dotSqLo v else 0, if lane = 1 then dotSqLo v else 0,
    if lane = 2 then dotSqLo v else 0, if lane = 3 then dotSqLo v else 0,
    if lane = 0 then dotSqHi v else 0, if lane = 1 then dotSqHi v else 0,
    if lane = 2 then dotSqHi v else 0, if lane = 3 then dotSqHi v else 0⟩

/-- Intrinsic `_mm256_or_ps`, lane-wise. -/
def or8 (u v : V8) : Option V8 :=
  match orQ u.x0 v.x0, orQ u.x1 v.x1, orQ u.x2 v.x2, orQ u.x3 v.x3,
      orQ u.x4 v.x4, orQ u.x5 v.x5, orQ u.x6 v.x6, orQ u.x7 v.x7 with
  | some a, some b, some c, some d, some e, some f, some g, some h =>
    some ⟨a, b, c, d, e, f, g, h⟩
  | _, _, _, _, _, _, _, _ => none

/-- Number of full 32-sample groups in the AVX variants:
`const unsigned int thirtySecondthPoints = num_points / 32;`. -/
def thirtySecondthPoints (n : ℕ) : ℕ := n / 32

/-- The AVX vector loop: per iteration, four 8-wide loads at offsets
0, 8, 16, 24; each block's per-half dot products are placed in lane 0, 1,
2, 3 of their halves (`0xF1`, `0xF2`, `0xF4`, `0xF8`), OR-merged and added
into `squareAccumulator`; the samples are added lane-wise into
`accumulator`. -/
def avxLoop (buf : List ℚ) : ℕ → ℕ → V8 → V8 → Option (V8 × V8)
  | _, 0, acc, sqAcc => some (acc, sqAcc)
  | i, k + 1, acc, sqAcc =>
    match load8 buf i, load8 buf (i + 8), load8 buf (i + 16),
        load8 buf (i + 24) with
    | some aVal1, some aVal2, some aVal3, some aVal4 =>
      let cVal1 := dp8 aVal1 0
      let cVal2 := dp8 aVal2 1
      let cVal3 := dp8 aVal3 2
      let cVal4 := dp8 aVal4 3
      let acc4 := add8 (add8 (add8 (add8 acc aVal1) aVal2) aVal3) aVal4
      match or8 cVal1 cVal2, or8 cVal3 cVal4 with
      | some c12, some c34 =>
        match or8 c12 c34 with
        | some c => avxLoop buf (i + 32) k acc4 (add8 sqAcc c)
        | none => none
      | _, _ => none
    | _, _, _, _ => none

/-- The AVX variants' scalar totals after vector loop, horizontal reduction
and scalar tail. -/
def avxTotals (buf : List ℚ) (n : ℕ) : Option (ℚ × ℚ) :=
  match avxLoop buf 0 (thirtySecondthPoints n) zero8 zero8 with
  | none => none
  | some (acc, sqAcc) =>
    scalarAccum buf (thirtySecondthPoints n * 32)
      (n - thirtySecondthPoints n * 32) (hsum8 acc) (hsum8 sqAcc)

/-- Embedding of `volk_32f_stddev_and_mean_32f_x2_a_avx` (aligned loads). -/
def volk_32f_stddev_and_mean_32f_x2_a_avx (buf : List ℚ) (n : ℕ) :
    Option Out :=
  if n = 0 then some ⟨SVal.q 0, 0⟩
  else (avxTotals buf n).map fun p => finalize p.1 p.2 n

/-- Embedding of `volk_32f_stddev_and_mean_32f_x2_u_avx`: textually identical to the
aligned variant except `_mm256_loadu_ps` replaces `_mm256_load_ps`;
the values read are the same, so the embedded body is the same. -/
def volk_32f_stddev_and_mean_32f_x2_u_avx (buf : List ℚ) (n : ℕ) :
    Option Out :=
  if n = 0 then some ⟨SVal.q 0, 0⟩
  else (avxTotals buf n).map fun p => finalize p.1 p.2 n

theorem hsum8_zero8 : hsum8 zero8 = 0 := by
  simp [hsum8, zero8]

theorem hsum8_add8 (u v : V8) : hsum8 (add8 u v) = hsum8 u + hsum8 v := by
  simp only [hsum8, add8]
  ring

/-- Masks `0xF1` and `0xF2` place results in lanes {0,4} and {1,5}:
disjoint, so the OR merge is exact. -/
theorem or8_dp12 (v1 v2 : V8) :
    or8 (dp8 v1 0) (dp8 v2 1)
      = some ⟨dotSqLo v1, dotSqLo v2, 0, 0, dotSqHi v1, dotSqHi v2, 0, 0⟩ := by
  simp [or8, dp8, orQ_zero_left, orQ_zero_right]

/-- Masks `0xF4` and `0xF8` place results in lanes {2,6} and {3,7}:
disjoint, so the OR merge is exact. -/
theorem or8_dp34 (v3 v4 : V8) :
    or8 (dp8 v3 2) (dp8 v4 3)
      = some ⟨0, 0, dotSqLo v3, dotSqLo v4, 0, 0, dotSqHi v3, dotSqHi v4⟩ := by
  simp [or8, dp8, orQ_zero_left, orQ_zero_right]

/-- The supports `{0,1,4,5}` and `{2,3,6,7}` are disjoint: the final OR
merge is exact and all eight partial dot products survive. -/
theorem or8_combine (a b c d e f g h : ℚ) :
    or8 ⟨a, b, 0, 0, e, f, 0, 0⟩ ⟨0, 0, c, d, 0, 0, g, h⟩
      = some ⟨a, b, c, d, e, f, g, h⟩ := by
  simp [or8, orQ_zero_left, orQ_zero_right]

theorem sumSeg_eight (buf : List ℚ) (i : ℕ) :
    sumSeg buf i 8 = sumSeg buf i 4 + sumSeg buf (i + 4) 4 := by
  rw [show (8 : ℕ) = 4 + 4 from by norm_num, sumSeg_add buf i 4 4]

theorem sqSumSeg_eight (buf : List ℚ) (i : ℕ) :
    sqSumSeg buf i 8 = sqSumSeg buf i 4 + sqSumSeg buf (i + 4) 4 := by
  rw [show (8 : ℕ) = 4 + 4 from by norm_num, sqSumSeg_add buf i 4 4]

theorem sumSeg_thirtytwo (buf : List ℚ) (i : ℕ) :
    sumSeg buf i 32 = sumSeg buf i 8 + sumSeg buf (i + 8) 8
      + sumSeg buf (i + 16) 8 + sumSeg buf (i + 24) 8 := by
  rw [show (32 : ℕ) = 8 + 8 + 8 + 8 from by norm_num,
    sumSeg_add buf i (8 + 8 + 8) 8, sumSeg_add buf i (8 + 8) 8,
    sumSeg_add buf i 8 8]

theorem sqSumSeg_thirtytwo (buf : List ℚ) (i : ℕ) :
    sqSumSeg buf i 32 = sqSumSeg buf i 8 + sqSumSeg buf (i + 8) 8
      + sqSumSeg buf (i + 16) 8 + sqSumSeg buf (i + 24) 8 := by
  rw [show (32 : ℕ) = 8 + 8 + 8 + 8 from by norm_num,
    sqSumSeg_add buf i (8 + 8 + 8) 8, sqSumSeg_add buf i (8 + 8) 8,
    sqSumSeg_add buf i 8 8]

theorem load8_spec (buf : List ℚ) (i : ℕ) (h : i + 8 ≤ buf.length) :
    load8 buf i = some ⟨buf[i], buf[i + 1], buf[i + 2], buf[i + 3],
      buf[i + 4], buf[i + 4 + 1], buf[i + 4 + 2], buf[i + 4 + 3]⟩ := by
  have h0 : i < buf.length := by omega
  have h1 : i + 1 < buf.length := by omega
  have h2 : i + 2 < buf.length := by omega
  have h3 : i + 3 < buf.length := by omega
  have h4 : i + 4 < buf.length := by omega
  have h5 : i + 4 + 1 < buf.length := by omega
  have h6 : i + 4 + 2 < buf.length := by omega
  have h7 : i + 4 + 3 < buf.length := by omega
  simp [load8, List.getElem?_eq_getElem h0, List.getElem?_eq_getElem h1,
    List.getElem?_eq_getElem h2, List.getElem?_eq_getElem h3,
    List.getElem?_eq_getElem h4, List.getElem?_eq_getElem h5,
    List.getElem?_eq_getElem h6, List.getElem?_eq_getElem h7]

theorem hsum8_load (buf : List ℚ) (i : ℕ) (h : i + 8 ≤ buf.length) :
    hsum8 ⟨buf[i], buf[i + 1], buf[i + 2], buf[i + 3],
      buf[i + 4], buf[i + 4 + 1], buf[i + 4 + 2], buf[i + 4 + 3]⟩
      = sumSeg buf i 8 := by
  have hlo : i + 4 ≤ buf.length := by omega
  have hhi : (i + 4) + 4 ≤ buf.length := by omega
  rw [sumSeg_eight buf i, ← hsum4_load buf i hlo,
    ← hsum4_load buf (i + 4) hhi]
  simp only [hsum8, hsum4]
  ring

theorem dotSqLo_load (buf : List ℚ) (i : ℕ) (h : i + 8 ≤ buf.length) :
    dotSqLo ⟨buf[i], buf[i + 1], buf[i + 2], buf[i + 3],
      buf[i + 4], buf[i + 4 + 1], buf[i + 4 + 2], buf[i + 4 + 3]⟩
      = sqSumSeg buf i 4 := by
  have hlo : i + 4 ≤ buf.length := by omega
  rw [← dotSq4_load buf i hlo]
  simp only [dotSqLo, dotSq4]

theorem dotSqHi_load (buf : List ℚ) (i : ℕ) (h : i + 8 ≤ buf.length) :
    dotSqHi ⟨buf[i], buf[i + 1], buf[i + 2], buf[i + 3],
      buf[i + 4], buf[i + 4 + 1], buf[i + 4 + 2], buf[i + 4 + 3]⟩
      = sqSumSeg buf (i + 4) 4 := by
  have hhi : (i + 4) + 4 ≤ buf.length := by omega
  rw [← dotSq4_load buf (i + 4) hhi]
  simp only [dotSqHi, dotSq4]

/-- Each AVX outer iteration consumes exactly 32 samples; after `k`
iterations the lane totals are the exact sums over the `32*k` consumed
samples (in particular the sum of all lanes of `squareAccumulator` is the
sum of squares of every consumed sample). -/
theorem avxLoop_spec (buf : List ℚ) :
    ∀ (k i : ℕ) (acc sqAcc : V8), i + 32 * k ≤ buf.length →
      ∃ acc' sqAcc', avxLoop buf i k acc sqAcc = some (acc', sqAcc')
        ∧ hsum8 acc' = hsum8 acc + sumSeg buf i (32 * k)
        ∧ hsum8 sqAcc' = hsum8 sqAcc + sqSumSeg buf i (32 * k) := by
  intro k
  induction k with
  | zero =>
    intro i acc sqAcc _
    exact ⟨acc, sqAcc, rfl, by simp [sumSeg_zero], by simp [sqSumSeg_zero]⟩
  | succ k ih =>
    intro i acc sqAcc h
    have ha : i + 8 ≤ buf.length := by omega
    have hb : (i + 8) + 8 ≤ buf.length := by omega
    have hc : (i + 16) + 8 ≤ buf.length := by omega
    have hd : (i + 24) + 8 ≤ buf.length := by omega
    have hrec : (i + 32) + 32 * k ≤ buf.length := by omega
    obtain ⟨acc', sqAcc', hloop, hm, hs⟩ :=
      ih (i + 32)
        (add8 (add8 (add8 (add8 acc
          ⟨buf[i], buf[i + 1], buf[i + 2], buf[i + 3],
            buf[i + 4], buf[i + 4 + 1], buf[i + 4 + 2], buf[i + 4 + 3]⟩)
          ⟨buf[i + 8], buf[i + 8 + 1], buf[i + 8 + 2], buf[i + 8 + 3],
            buf[i + 8 + 4], buf[i + 8 + 4 + 1], buf[i + 8 + 4 + 2],
            buf[i + 8 + 4 + 3]⟩)
          ⟨buf[i + 16], buf[i + 16 + 1], buf[i + 16 + 2], buf[i + 16 + 3],
            buf[i + 16 + 4], buf[i + 16 + 4 + 1], buf[i + 16 + 4 + 2],
            buf[i + 16 + 4 + 3]⟩)
          ⟨buf[i + 24], buf[i + 24 + 1], buf[i + 24 + 2], buf[i + 24 + 3],
            buf[i + 24 + 4], buf[i + 24 + 4 + 1], buf[i + 24 + 4 + 2],
            buf[i + 24 + 4 + 3]⟩)
        (add8 sqAcc
          ⟨dotSqLo ⟨buf[i], buf[i + 1], buf[i + 2], buf[i + 3],
              buf[i + 4], buf[i + 4 + 1], buf[i + 4 + 2], buf[i + 4 + 3]⟩,
            dotSqLo ⟨buf[i + 8], buf[i + 8 + 1], buf[i + 8 + 2],
              buf[i + 8 + 3], buf[i + 8 + 4], buf[i + 8 + 4 + 1],
              buf[i + 8 + 4 + 2], buf[i + 8 + 4 + 3]⟩,
            dotSqLo ⟨buf[i + 16], buf[i + 16 + 1], buf[i + 16 + 2],
              buf[i + 16 + 3], buf[i + 16 + 4], buf[i + 16 + 4 + 1],
              buf[i + 16 + 4 + 2], buf[i + 16 + 4 + 3]⟩,
            dotSqLo ⟨buf[i + 24], buf[i + 24 + 1], buf[i + 24 + 2],
              buf[i + 24 + 3], buf[i + 24 + 4], buf[i + 24 + 4 + 1],
              buf[i + 24 + 4 + 2], buf[i + 24 + 4 + 3]⟩,
            dotSqHi ⟨buf[i], buf[i + 1], buf[i + 2], buf[i + 3],
              buf[i + 4], buf[i + 4 + 1], buf[i + 4 + 2], buf[i + 4 + 3]⟩,
            dotSqHi ⟨buf[i + 8], buf[i + 8 + 1], buf[i + 8 + 2],
              buf[i + 8 + 3], buf[i + 8 + 4], buf[i + 8 + 4 + 1],
              buf[i + 8 + 4 + 2], buf[i + 8 + 4 + 3]⟩,
            dotSqHi ⟨buf[i + 16], buf[i + 16 + 1], buf[i + 16 + 2],
              buf[i + 16 + 3], buf[i + 16 + 4], buf[i + 16 + 4 + 1],
              buf[i + 16 + 4 + 2], buf[i + 16 + 4 + 3]⟩,
            dotSqHi ⟨buf[i + 24], buf[i + 24 + 1], buf[i + 24 + 2],
              buf[i + 24 + 3], buf[i + 24 + 4], buf[i + 24 + 4 + 1],
              buf[i + 24 + 4 + 2], buf[i + 24 + 4 + 3]⟩⟩)
        hrec
    refine ⟨acc', sqAcc', ?_, ?_, ?_⟩
    · rw [avxLoop, load8_spec buf i ha, load8_spec buf (i + 8) hb,
        load8_spec buf (i + 16) hc, load8_spec buf (i + 24) hd]
      simp only [or8_dp12, or8_dp34, or8_combine]
      exact hloop
    · rw [hm]
      simp only [hsum8_add8]
      rw [hsum8_load buf i ha, hsum8_load buf (i + 8) hb,
        hsum8_load buf (i + 16) hc, hsum8_load buf (i + 24) hd,
        show 32 * (k + 1) = 32 + 32 * k from by ring,
        sumSeg_add buf i 32 (32 * k), sumSeg_thirtytwo buf i]
      ring
    · rw [hs]
      simp only [hsum8_add8, hsum8, add8]
      rw [dotSqLo_load buf i ha, dotSqLo_load buf (i + 8) hb,
        dotSqLo_load buf (i + 16) hc, dotSqLo_load buf (i + 24) hd,
        dotSqHi_load buf i ha, dotSqHi_load buf (i + 8) hb,
        dotSqHi_load buf (i + 16) hc, dotSqHi_load buf (i + 24) hd,
        show 32 * (k + 1) = 32 + 32 * k from by ring,
        sqSumSeg_add buf i 32 (32 * k), sqSumSeg_thirtytwo buf i,
        sqSumSeg_eight buf i, sqSumSeg_eight buf (i + 8),
        sqSumSeg_eight buf (i + 16), sqSumSeg_eight buf (i + 24)]
      ring

/-- The AVX variants' totals are the exact sum and sum of squares of the
first `n` samples. -/
theorem avxTotals_spec (buf : List ℚ) (n : ℕ) (h : n ≤ buf.length) :
    avxTotals buf n = some (sumSeg buf 0 n, sqSumSeg buf 0 n) := by
  have hk : thirtySecondthPoints n * 32 ≤ n := by
    unfold thirtySecondthPoints
    exact Nat.div_mul_le_self n 32
  obtain ⟨acc', sqAcc', hloop, hm, hs⟩ :=
    avxLoop_spec buf (thirtySecondthPoints n) 0 zero8 zero8 (by omega)
  unfold avxTotals
  rw [hloop]
  show scalarAccum buf (thirtySecondthPoints n * 32)
      (n - thirtySecondthPoints n * 32) (hsum8 acc') (hsum8 sqAcc') = _
  rw [scalarAccum_spec buf (n - thirtySecondthPoints n * 32)
      (thirtySecondthPoints n * 32) _ _ (by omega),
    hm, hs, hsum8_zero8, sumSeg_split buf (thirtySecondthPoints n * 32) n hk,
    sqSumSeg_split buf (thirtySecondthPoints n * 32) n hk,
    show 32 * thirtySecondthPoints n = thirtySecondthPoints n * 32 from
      Nat.mul_comm 32 _]
  norm_num

theorem a_sse_eq_generic (buf : List ℚ) (n : ℕ) (h : n ≤ buf.length) :
    volk_32f_stddev_and_mean_32f_x2_a_sse buf n
      = volk_32f_stddev_and_mean_32f_x2_generic buf n := by
  by_cases hn : n = 0
  · subst hn
    rfl
  · rw [generic_spec buf n hn h]
    unfold volk_32f_stddev_and_mean_32f_x2_a_sse
    rw [if_neg hn, sseTotals_spec buf n h]
    rfl

theorem a_sse4_1_eq_generic (buf : List ℚ) (n : ℕ) (h : n ≤ buf.length) :
    volk_32f_stddev_and_mean_32f_x2_a_sse4_1 buf n
      = volk_32f_stddev_and_mean_32f_x2_generic buf n := by
  by_cases hn : n = 0
  · subst hn
    rfl
  · rw [generic_spec buf n hn h]
    unfold volk_32f_stddev_and_mean_32f_x2_a_sse4_1
    rw [if_neg hn, sse41Totals_spec buf n h]
    rfl

theorem a_avx_eq_generic (buf : List ℚ) (n : ℕ) (h : n ≤ buf.length) :
    volk_32f_stddev_and_mean_32f_x2_a_avx buf n
      = volk_32f_stddev_and_mean_32f_x2_generic buf n := by
  by_cases hn : n = 0
  · subst hn
    rfl
  · rw [generic_spec buf n hn h]
    unfold volk_32f_stddev_and_mean_32f_x2_a_avx
    rw [if_neg hn, avxTotals_spec buf n h]
    rfl

theorem u_avx_eq_generic (buf : List ℚ) (n : ℕ) (h : n ≤ buf.length) :
    volk_32f_stddev_and_mean_32f_x2_u_avx buf n
      = volk_32f_stddev_and_mean_32f_x2_generic buf n := by
  by_cases hn : n = 0
  · subst hn
    rfl
  · rw [generic_spec buf n hn h]
    unfold volk_32f_stddev_and_mean_32f_x2_u_avx
    rw [if_neg hn, avxTotals_spec buf n h]
    rfl

/-- C1: for every input buffer holding at least N samples and every N > 0,
each vectorized variant (SSE, SSE4.1, aligned AVX, unaligned AVX) produces
the same (mean, stddev) pair as the generic scalar reference in the
exact-arithmetic embedding — so any difference the C code can exhibit is
summation-order rounding, not an algorithmic difference — and in particular
every variant's mean is within relative tolerance 1e-5 of the reference
mean and its stddev equals the reference stddev. -/
theorem C1_variants_match_generic (buf : List ℚ) (n : ℕ) (hn : 0 < n)
    (h : n ≤ buf.length) :
    volk_32f_stddev_and_mean_32f_x2_a_sse buf n
        = volk_32f_stddev_and_mean_32f_x2_generic buf n
    ∧ volk_32f_stddev_and_mean_32f_x2_a_sse4_1 buf n
        = volk_32f_stddev_and_mean_32f_x2_generic buf n
    ∧ volk_32f_stddev_and_mean_32f_x2_a_avx buf n
        = volk_32f_stddev_and_mean_32f_x2_generic buf n
    ∧ volk_32f_stddev_and_mean_32f_x2_u_avx buf n
        = volk_32f_stddev_and_mean_32f_x2_generic buf n
    ∧ ∀ ov og : Out,
        (volk_32f_stddev_and_mean_32f_x2_a_sse buf n = some ov
          ∨ volk_32f_stddev_and_mean_32f_x2_a_sse4_1 buf n = some ov
          ∨ volk_32f_stddev_and_mean_32f_x2_a_avx buf n = some ov
          ∨ volk_32f_stddev_and_mean_32f_x2_u_avx buf n = some ov) →
        volk_32f_stddev_and_mean_32f_x2_generic buf n = some og →
        |ov.mean - og.mean| ≤ 1 / 100000 * |og.mean|
          ∧ ov.stddev = og.stddev := by
  have e1 := a_sse_eq_generic buf n h
  have e2 := a_sse4_1_eq_generic buf n h
  have e3 := a_avx_eq_generic buf n h
  have e4 := u_avx_eq_generic buf n h
  refine ⟨e1, e2, e3, e4, ?_⟩
  intro ov og hov hog
  have hsame : some ov = some og := by
    rcases hov with h' | h' | h' | h'
    · rw [e1] at h'
      exact h'.symm.trans hog
    · rw [e2] at h'
      exact h'.symm.trans hog
    · rw [e3] at h'
      exact h'.symm.trans hog
    · rw [e4] at h'
      exact h'.symm.trans hog
  obtain rfl : ov = og := Option.some.inj hsame
  constructor
  · simp only [sub_self, abs_zero]
    positivity
  · rfl

/-- C1 witness: the SSE variant agrees with the generic reference on the
concrete buffer [1, 2, 3, 4] with N = 4. -/
theorem C1_witness :
    (0 : ℕ) < 4 ∧ (4 : ℕ) ≤ ([1, 2, 3, 4] : List ℚ).length
    ∧ volk_32f_stddev_and_mean_32f_x2_a_sse [1, 2, 3, 4] 4
        = volk_32f_stddev_and_mean_32f_x2_generic [1, 2, 3, 4] 4 :=
  ⟨by norm_num, by simp,
    (C1_variants_match_generic [1, 2, 3, 4] 4 (by norm_num) (by simp)).1⟩

/-- C2: for every variant, num_points = 0 yields mean = 0 and stddev = 0
written as plain values — the `if (num_points > 0)` guard skips the loop,
the divisions and `sqrtf`, so the initializers are written back unchanged:
a defined degenerate case, not an error. -/
theorem C2_zero_num_points (buf : List ℚ) :
    volk_32f_stddev_and_mean_32f_x2_generic buf 0 = some ⟨SVal.q 0, 0⟩
    ∧ volk_32f_stddev_and_mean_32f_x2_a_sse buf 0 = some ⟨SVal.q 0, 0⟩
    ∧ volk_32f_stddev_and_mean_32f_x2_a_sse4_1 buf 0 = some ⟨SVal.q 0, 0⟩
    ∧ volk_32f_stddev_and_mean_32f_x2_a_avx buf 0 = some ⟨SVal.q 0, 0⟩
    ∧ volk_32f_stddev_and_mean_32f_x2_u_avx buf 0 = some ⟨SVal.q 0, 0⟩ :=
  ⟨rfl, rfl, rfl, rfl, rfl⟩

/-- C3: for N > 0 the scalar reference accumulates sum and sum of squares
over all N samples in order and then finalizes with mean = sum/N and
stddev = sqrtf(sumSq/N - mean*mean), applying `sqrtF` directly to the
variance with no clamping to zero; consequently whenever the computed
variance is negative the returned stddev is NaN (the square root's domain
error is propagated, not suppressed). -/
theorem C3_no_clamp_nan_on_negative_variance (buf : List ℚ) (n : ℕ)
    (hn : 0 < n) (h : n ≤ buf.length) :
    volk_32f_stddev_and_mean_32f_x2_generic buf n
        = some (finalize (sumSeg buf 0 n) (sqSumSeg buf 0 n) n)
    ∧ (∀ s q : ℚ, finalize s q n
        = ⟨sqrtF (q / (n : ℚ) - s / (n : ℚ) * (s / (n : ℚ))), s / (n : ℚ)⟩)
    ∧ (∀ s q : ℚ, q / (n : ℚ) - s / (n : ℚ) * (s / (n : ℚ)) < 0 →
        (finalize s q n).stddev = SVal.nan) := by
  refine ⟨generic_spec buf n (by omega) h, fun s q => rfl, fun s q hneg => ?_⟩
  simp only [finalize, sqrtF]
  rw [if_pos hneg]

/-- C3 witness: on the buffer [2] with N = 1 the reference reduces to
`finalize`, and at the accumulator state sum = 2, sumSq = 1, N = 1 (computed
variance 1 - 4 = -3 < 0) the finalization returns NaN. -/
theorem C3_witness :
    (0 : ℕ) < 1 ∧ (1 : ℕ) ≤ ([2] : List ℚ).length
    ∧ volk_32f_stddev_and_mean_32f_x2_generic [2] 1
        = some (finalize (sumSeg [2] 0 1) (sqSumSeg [2] 0 1) 1)
    ∧ ((1 : ℚ) / ((1 : ℕ) : ℚ) - (2 : ℚ) / ((1 : ℕ) : ℚ)
        * ((2 : ℚ) / ((1 : ℕ) : ℚ)) < 0)
    ∧ (finalize 2 1 1).stddev = SVal.nan := by
  have hmain := C3_no_clamp_nan_on_negative_variance [2] 1 (by norm_num)
    (by simp)
  exact ⟨by norm_num, by simp, hmain.1, by norm_num,
    hmain.2.2 2 1 (by norm_num)⟩

/-- C4: for every N and every vectorized variant with lane width W and
unroll factor U (SSE: U·W = 4, SSE4.1: U·W = 16, AVX: U·W = 32), the vector
loop consumes exactly (N / (U·W)) · U·W samples, and after the scalar tail
consumed the remaining N mod (U·W) samples into the same totals, each of
the N samples contributes to the final sum exactly once and its square to
the final sumSq exactly once. -/
theorem C4_vector_loop_tail_partition (buf : List ℚ) (n : ℕ)
    (h : n ≤ buf.length) :
    ((sseLoop buf 0 (quarterPoints n) zero4 zero4).map
        fun p => (hsum4 p.1, hsum4 p.2))
      = some (sumSeg buf 0 (4 * quarterPoints n),
          sqSumSeg buf 0 (4 * quarterPoints n))
    ∧ ((sse41Loop buf 0 (sixteenthPoints n) zero4 zero4).map
        fun p => (hsum4 p.1, hsum4 p.2))
      = some (sumSeg buf 0 (16 * sixteenthPoints n),
          sqSumSeg buf 0 (16 * sixteenthPoints n))
    ∧ ((avxLoop buf 0 (thirtySecondthPoints n) zero8 zero8).map
        fun p => (hsum8 p.1, hsum8 p.2))
      = some (sumSeg buf 0 (32 * thirtySecondthPoints n),
          sqSumSeg buf 0 (32 * thirtySecondthPoints n))
    ∧ sseTotals buf n = some (sumSeg buf 0 n, sqSumSeg buf 0 n)
    ∧ sse41Totals buf n = some (sumSeg buf 0 n, sqSumSeg buf 0 n)
    ∧ avxTotals buf n = some (sumSeg buf 0 n, sqSumSeg buf 0 n) := by
  have hq : quarterPoints n * 4 ≤ n := by
    unfold quarterPoints
    exact Nat.div_mul_le_self n 4
  have hx : sixteenthPoints n * 16 ≤ n := by
    unfold sixteenthPoints
    exact Nat.div_mul_le_self n 16
  have ht : thirtySecondthPoints n * 32 ≤ n := by
    unfold thirtySecondthPoints
    exact Nat.div_mul_le_self n 32
  obtain ⟨a1, s1, hl1, hm1, hs1⟩ :=
    sseLoop_spec buf (quarterPoints n) 0 zero4 zero4 (by omega)
  obtain ⟨a2, s2, hl2, hm2, hs2⟩ :=
    sse41Loop_spec buf (sixteenthPoints n) 0 zero4 zero4 (by omega)
  obtain ⟨a3, s3, hl3, hm3, hs3⟩ :=
    avxLoop_spec buf (thirtySecondthPoints n) 0 zero8 zero8 (by omega)
  refine ⟨?_, ?_, ?_, sseTotals_spec buf n h, sse41Totals_spec buf n h,
    avxTotals_spec buf n h⟩
  · simp [hl1, hm1, hs1, hsum4_zero4]
  · simp [hl2, hm2, hs2, hsum4_zero4]
  · simp [hl3, hm3, hs3, hsum8_zero8]

/-- C4 witness: on [1, 2, 3, 4, 5, 6] with N = 6 the SSE totals are the
exact sum 21 and sum of squares 91 of all six samples (vector loop takes
the first 4, the tail the remaining 2). -/
theorem C4_witness :
    (6 : ℕ) ≤ ([1, 2, 3, 4, 5, 6] : List ℚ).length
    ∧ sseTotals [1, 2, 3, 4, 5, 6] 6
        = some (sumSeg [1, 2, 3, 4, 5, 6] 0 6, sqSumSeg [1, 2, 3, 4, 5, 6] 0 6)
    ∧ sumSeg [1, 2, 3, 4, 5, 6] 0 6 = 21
    ∧ sqSumSeg [1, 2, 3, 4, 5, 6] 0 6 = 91 := by
  refine ⟨by simp,
    (C4_vector_loop_tail_partition [1, 2, 3, 4, 5, 6] 6 (by simp)).2.2.2.1,
    ?_, ?_⟩
  · norm_num [sumSeg, seg]
  · norm_num [sqSumSeg, seg]

/-- C5 counterexample: the SSE4.1 variant is 4-wide (its registers hold 4
floats) yet its outer loop does not process 4 samples per iteration with
fullGroups = N/4: the code computes `sixteenthPoints = num_points / 16`
(so at N = 16 fullGroups is 1, not 16/4 = 4) and a single outer iteration
consumes 16 samples — the lane totals after one iteration on
[1, ..., 16] sum to 136 = 1 + ... + 16, not 1 + 2 + 3 + 4 = 10. -/
theorem C5_counterexample :
    sixteenthPoints 16 = 1 ∧ (16 : ℕ) / 4 = 4
    ∧ sixteenthPoints 16 ≠ 16 / 4
    ∧ ((sse41Loop [1, 2, 3, 4, 5, 6, 7, 8, 9, 10, 11, 12, 13, 14, 15, 16]
        0 1 zero4 zero4).map fun p => hsum4 p.1) = some 136
    ∧ (136 : ℚ) ≠ 1 + 2 + 3 + 4 := by
  refine ⟨rfl, rfl, by norm_num [sixteenthPoints], ?_, by norm_num⟩
  norm_num [sse41Loop, load4, dp4, or4, orQ, dotSq4, add4, hsum4, zero4]

/-- C5 amended: the plain SSE 4-wide variant uses U = 1 (4 samples per
iteration, fullGroups = N/4); the SSE4.1 variant, although also 4-wide,
uses U = 4 (16 samples per outer iteration, fullGroups = N/16); the 8-wide
AVX variants use U = 4 (32 samples per outer step, fullGroups = N/32). -/
theorem C5_unroll_factors (buf : List ℚ) (k : ℕ) (h : 32 * k ≤ buf.length) :
    (∀ n : ℕ, quarterPoints n = n / 4 ∧ sixteenthPoints n = n / 16
      ∧ thirtySecondthPoints n = n / 32)
    ∧ ((sseLoop buf 0 k zero4 zero4).map fun p => hsum4 p.1)
        = some (sumSeg buf 0 (4 * k))
    ∧ ((sse41Loop buf 0 k zero4 zero4).map fun p => hsum4 p.1)
        = some (sumSeg buf 0 (16 * k))
    ∧ ((avxLoop buf 0 k zero8 zero8).map fun p => hsum8 p.1)
        = some (sumSeg buf 0 (32 * k)) := by
  obtain ⟨a1, s1, hl1, hm1, _⟩ := sseLoop_spec buf k 0 zero4 zero4 (by omega)
  obtain ⟨a2, s2, hl2, hm2, _⟩ := sse41Loop_spec buf k 0 zero4 zero4 (by omega)
  obtain ⟨a3, s3, hl3, hm3, _⟩ := avxLoop_spec buf k 0 zero8 zero8 (by omega)
  refine ⟨fun n => ⟨rfl, rfl, rfl⟩, ?_, ?_, ?_⟩
  · simp [hl1, hm1, hsum4_zero4]
  · simp [hl2, hm2, hsum4_zero4]
  · simp [hl3, hm3, hsum8_zero8]

/-- C5 witness: with k = 1 outer iteration on the 32-sample buffer
[1, ..., 32], the SSE loop consumes 4 samples (sum 10), the SSE4.1 loop 16
samples (sum 136), the AVX loop 32 samples (sum 528). -/
theorem C5_witness :
    32 * 1 ≤ ([1, 2, 3, 4, 5, 6, 7, 8, 9, 10, 11, 12, 13, 14, 15, 16,
      17, 18, 19, 20, 21, 22, 23, 24, 25, 26, 27, 28, 29, 30, 31, 32] :
        List ℚ).length
    ∧ ((sse41Loop [1, 2, 3, 4, 5, 6, 7, 8, 9, 10, 11, 12, 13, 14, 15, 16,
        17, 18, 19, 20, 21, 22, 23, 24, 25, 26, 27, 28, 29, 30, 31, 32]
        0 1 zero4 zero4).map fun p => hsum4 p.1)
      = some (sumSeg [1, 2, 3, 4, 5, 6, 7, 8, 9, 10, 11, 12, 13, 14, 15, 16,
        17, 18, 19, 20, 21, 22, 23, 24, 25, 26, 27, 28, 29, 30, 31, 32]
        0 (16 * 1))
    ∧ sumSeg [1, 2, 3, 4, 5, 6, 7, 8, 9, 10, 11, 12, 13, 14, 15, 16,
        17, 18, 19, 20, 21, 22, 23, 24, 25, 26, 27, 28, 29, 30, 31, 32]
        0 (16 * 1) = 136 := by
  refine ⟨by simp,
    (C5_unroll_factors [1, 2, 3, 4, 5, 6, 7, 8, 9, 10, 11, 12, 13, 14, 15,
      16, 17, 18, 19, 20, 21, 22, 23, 24, 25, 26, 27, 28, 29, 30, 31, 32]
      1 (by simp)).2.2.1, ?_⟩
  norm_num [sumSeg, seg]

/-- C6: for every value c and every N > 0, running any variant on a buffer
of N copies of c returns mean = c and stddev = sqrt 0 = 0. -/
theorem C6_constant_buffer (c : ℚ) (n : ℕ) (hn : 0 < n) :
    volk_32f_stddev_and_mean_32f_x2_generic (List.replicate n c) n
        = some ⟨SVal.sqrtOf 0, c⟩
    ∧ volk_32f_stddev_and_mean_32f_x2_a_sse (List.replicate n c) n
        = some ⟨SVal.sqrtOf 0, c⟩
    ∧ volk_32f_stddev_and_mean_32f_x2_a_sse4_1 (List.replicate n c) n
        = some ⟨SVal.sqrtOf 0, c⟩
    ∧ volk_32f_stddev_and_mean_32f_x2_a_avx (List.replicate n c) n
        = some ⟨SVal.sqrtOf 0, c⟩
    ∧ volk_32f_stddev_and_mean_32f_x2_u_avx (List.replicate n c) n
        = some ⟨SVal.sqrtOf 0, c⟩
    ∧ SVal.denotes (SVal.sqrtOf 0) 0 := by
  have hlen : n ≤ (List.replicate n c).length := by simp
  have hn' : n ≠ 0 := by omega
  have hn0 : ((n : ℚ)) ≠ 0 := Nat.cast_ne_zero.mpr hn'
  have hseg : seg (List.replicate n c) 0 n = List.replicate n c := by
    simp [seg]
  have hS : sumSeg (List.replicate n c) 0 n = (n : ℚ) * c := by
    rw [sumSeg, hseg, List.sum_replicate, nsmul_eq_mul]
  have hQ : sqSumSeg (List.replicate n c) 0 n = (n : ℚ) * (c * c) := by
    rw [sqSumSeg, hseg, List.map_replicate, List.sum_replicate, nsmul_eq_mul]
  have hgen : volk_32f_stddev_and_mean_32f_x2_generic (List.replicate n c) n
      = some ⟨SVal.sqrtOf 0, c⟩ := by
    rw [generic_spec (List.replicate n c) n hn' hlen, hS, hQ]
    simp only [finalize, mul_div_cancel_left₀ c hn0,
      mul_div_cancel_left₀ (c * c) hn0, sub_self, sqrtF]
    norm_num
  refine ⟨hgen, ?_, ?_, ?_, ?_, ?_⟩
  · rw [a_sse_eq_generic (List.replicate n c) n hlen, hgen]
  · rw [a_sse4_1_eq_generic (List.replicate n c) n hlen, hgen]
  · rw [a_avx_eq_generic (List.replicate n c) n hlen, hgen]
  · rw [u_avx_eq_generic (List.replicate n c) n hlen, hgen]
  · simp [SVal.denotes]

/-- C6 witness: three copies of 7 give mean 7 and stddev sqrt 0. -/
theorem C6_witness :
    (0 : ℕ) < 3
    ∧ volk_32f_stddev_and_mean_32f_x2_generic (List.replicate 3 (7 : ℚ)) 3
        = some ⟨SVal.sqrtOf 0, 7⟩ :=
  ⟨by norm_num, (C6_constant_buffer 7 3 (by norm_num)).1⟩

/-- C7: the scalar reference on [1, 2, 3, 4] with N = 4 returns mean = 5/2
and stddev = sqrt(5/4) (variance 30/4 - 25/4 = 5/4), and on [5] with N = 1
returns mean = 5 and stddev = sqrt 0 = 0. -/
theorem C7_concrete_scenarios :
    volk_32f_stddev_and_mean_32f_x2_generic [1, 2, 3, 4] 4
        = some ⟨SVal.sqrtOf (5 / 4), 5 / 2⟩
    ∧ SVal.denotes (SVal.sqrtOf (5 / 4)) (Real.sqrt (5 / 4))
    ∧ volk_32f_stddev_and_mean_32f_x2_generic [5] 1
        = some ⟨SVal.sqrtOf 0, 5⟩
    ∧ SVal.denotes (SVal.sqrtOf 0) 0 := by
  refine ⟨?_, ?_, ?_, ?_⟩
  · norm_num [volk_32f_stddev_and_mean_32f_x2_generic, scalarAccum,
      finalize, sqrtF]
  · constructor
    · norm_num
    · norm_num
  · norm_num [volk_32f_stddev_and_mean_32f_x2_generic, scalarAccum,
      finalize, sqrtF]
  · simp [SVal.denotes]

/-- C8: for every N and every variant, the function reads only elements
0..N-1 of the input buffer: whenever the buffer holds at least N samples
the out-of-range branch of the embedded `Option` indexing is unreachable
(the result is `some`), and the result depends only on the first N
elements — any buffer with the same N-prefix gives the identical result. -/
theorem C8_reads_only_first_n (buf : List ℚ) (n : ℕ) (h : n ≤ buf.length) :
    ((volk_32f_stddev_and_mean_32f_x2_generic buf n).isSome
      ∧ (volk_32f_stddev_and_mean_32f_x2_a_sse buf n).isSome
      ∧ (volk_32f_stddev_and_mean_32f_x2_a_sse4_1 buf n).isSome
      ∧ (volk_32f_stddev_and_mean_32f_x2_a_avx buf n).isSome
      ∧ (volk_32f_stddev_and_mean_32f_x2_u_avx buf n).isSome)
    ∧ ∀ buf' : List ℚ, n ≤ buf'.length → seg buf 0 n = seg buf' 0 n →
        volk_32f_stddev_and_mean_32f_x2_generic buf n
            = volk_32f_stddev_and_mean_32f_x2_generic buf' n
        ∧ volk_32f_stddev_and_mean_32f_x2_a_sse buf n
            = volk_32f_stddev_and_mean_32f_x2_a_sse buf' n
        ∧ volk_32f_stddev_and_mean_32f_x2_a_sse4_1 buf n
            = volk_32f_stddev_and_mean_32f_x2_a_sse4_1 buf' n
        ∧ volk_32f_stddev_and_mean_32f_x2_a_avx buf n
            = volk_32f_stddev_and_mean_32f_x2_a_avx buf' n
        ∧ volk_32f_stddev_and_mean_32f_x2_u_avx buf n
            = volk_32f_stddev_and_mean_32f_x2_u_avx buf' n := by
  by_cases hn : n = 0
  · subst hn
    exact ⟨⟨rfl, rfl, rfl, rfl, rfl⟩,
      fun buf' _ _ => ⟨rfl, rfl, rfl, rfl, rfl⟩⟩
  · constructor
    · refine ⟨?_, ?_, ?_, ?_, ?_⟩
      · rw [generic_spec buf n hn h]
        rfl
      · rw [a_sse_eq_generic buf n h, generic_spec buf n hn h]
        rfl
      · rw [a_sse4_1_eq_generic buf n h, generic_spec buf n hn h]
        rfl
      · rw [a_avx_eq_generic buf n h, generic_spec buf n hn h]
        rfl
      · rw [u_avx_eq_generic buf n h, generic_spec buf n hn h]
        rfl
    · intro buf' h' hseg
      have hS : sumSeg buf 0 n = sumSeg buf' 0 n := by
        rw [sumSeg, hseg, sumSeg]
      have hQ : sqSumSeg buf 0 n = sqSumSeg buf' 0 n := by
        rw [sqSumSeg, hseg, sqSumSeg]
      have hgen : volk_32f_stddev_and_mean_32f_x2_generic buf n
          = volk_32f_stddev_and_mean_32f_x2_generic buf' n := by
        rw [generic_spec buf n hn h, generic_spec buf' n hn h', hS, hQ]
      refine ⟨hgen, ?_, ?_, ?_, ?_⟩
      · rw [a_sse_eq_generic buf n h, a_sse_eq_generic buf' n h', hgen]
      · rw [a_sse4_1_eq_generic buf n h, a_sse4_1_eq_generic buf' n h', hgen]
      · rw [a_avx_eq_generic buf n h, a_avx_eq_generic buf' n h', hgen]
      · rw [u_avx_eq_generic buf n h, u_avx_eq_generic buf' n h', hgen]

/-- C8 witness: with N = 2, [1, 2, 3] and [1, 2, 9] share the 2-prefix, the
reference returns a defined (`some`) result, and the two buffers give the
identical output — element 2 is never read. -/
theorem C8_witness :
    (2 : ℕ) ≤ ([1, 2, 3] : List ℚ).length
    ∧ (volk_32f_stddev_and_mean_32f_x2_generic [1, 2, 3] 2).isSome
    ∧ (2 : ℕ) ≤ ([1, 2, 9] : List ℚ).length
    ∧ seg [1, 2, 3] 0 2 = seg [1, 2, 9] 0 2
    ∧ volk_32f_stddev_and_mean_32f_x2_generic [1, 2, 3] 2
        = volk_32f_stddev_and_mean_32f_x2_generic [1, 2, 9] 2 := by
  have hm := C8_reads_only_first_n [1, 2, 3] 2 (by simp)
  exact ⟨by simp, hm.1.1, by simp, by norm_num [seg],
    (hm.2 [1, 2, 9] (by simp) (by norm_num [seg])).1⟩

/-- C9: the four dot-product results per outer iteration (masks 0xF1, 0xF2,
0xF4, 0xF8) occupy pairwise disjoint lanes with all other lanes +0.0, so the
bitwise-OR combination preserves all four values exactly (never hits the
garbage case of the embedded OR); consequently after each iteration the sum
of all lanes of squareAccumulator equals the sum of squares of every sample
consumed so far. -/
theorem C9_disjoint_lanes_or_exact :
    (∀ v1 v2 v3 v4 : V8,
      (or8 (dp8 v1 0) (dp8 v2 1)).bind (fun c12 =>
        (or8 (dp8 v3 2) (dp8 v4 3)).bind fun c34 => or8 c12 c34)
        = some ⟨dotSqLo v1, dotSqLo v2, dotSqLo v3, dotSqLo v4,
            dotSqHi v1, dotSqHi v2, dotSqHi v3, dotSqHi v4⟩)
    ∧ (∀ v1 v2 v3 v4 : V4,
      (or4 (dp4 v1 0) (dp4 v2 1)).bind (fun c12 =>
        (or4 (dp4 v3 2) (dp4 v4 3)).bind fun c34 => or4 c12 c34)
        = some ⟨dotSq4 v1, dotSq4 v2, dotSq4 v3, dotSq4 v4⟩)
    ∧ (∀ (buf : List ℚ) (k : ℕ), 32 * k ≤ buf.length →
        ((avxLoop buf 0 k zero8 zero8).map fun p => hsum8 p.2)
          = some (sqSumSeg buf 0 (32 * k)))
    ∧ (∀ (buf : List ℚ) (k : ℕ), 16 * k ≤ buf.length →
        ((sse41Loop buf 0 k zero4 zero4).map fun p => hsum4 p.2)
          = some (sqSumSeg buf 0 (16 * k))) := by
  refine ⟨?_, ?_, ?_, ?_⟩
  · intro v1 v2 v3 v4
    rw [or8_dp12, or8_dp34]
    simp only [Option.some_bind]
    exact or8_combine _ _ _ _ _ _ _ _
  · intro v1 v2 v3 v4
    rw [or4_dp12, or4_dp34]
    simp only [Option.some_bind]
    exact or4_combine _ _ _ _
  · intro buf k hk
    obtain ⟨a, s, hl, _, hs⟩ := avxLoop_spec buf k 0 zero8 zero8 (by omega)
    simp [hl, hs, hsum8_zero8]
  · intro buf k hk
    obtain ⟨a, s, hl, _, hs⟩ := sse41Loop_spec buf k 0 zero4 zero4 (by omega)
    simp [hl, hs, hsum4_zero4]

/-- C9 witness: one AVX iteration on [1, ..., 32] accumulates in
squareAccumulator exactly the sum of squares 11440 = 1² + ... + 32². -/
theorem C9_witness :
    32 * 1 ≤ ([1, 2, 3, 4, 5, 6, 7, 8, 9, 10, 11, 12, 13, 14, 15, 16,
      17, 18, 19, 20, 21, 22, 23, 24, 25, 26, 27, 28, 29, 30, 31, 32] :
        List ℚ).length
    ∧ ((avxLoop [1, 2, 3, 4, 5, 6, 7, 8, 9, 10, 11, 12, 13, 14, 15, 16,
        17, 18, 19, 20, 21, 22, 23, 24, 25, 26, 27, 28, 29, 30, 31, 32]
        0 1 zero8 zero8).map fun p => hsum8 p.2)
      = some (sqSumSeg [1, 2, 3, 4, 5, 6, 7, 8, 9, 10, 11, 12, 13, 14, 15,
        16, 17, 18, 19, 20, 21, 22, 23, 24, 25, 26, 27, 28, 29, 30, 31, 32]
        0 (32 * 1))
    ∧ sqSumSeg [1, 2, 3, 4, 5, 6, 7, 8, 9, 10, 11, 12, 13, 14, 15, 16,
        17, 18, 19, 20, 21, 22, 23, 24, 25, 26, 27, 28, 29, 30, 31, 32]
        0 (32 * 1) = 11440 := by
  refine ⟨by simp,
    C9_disjoint_lanes_or_exact.2.2.1
      [1, 2, 3, 4, 5, 6, 7, 8, 9, 10, 11, 12, 13, 14, 15, 16, 17, 18, 19,
        20, 21, 22, 23, 24, 25, 26, 27, 28, 29, 30, 31, 32] 1 (by simp), ?_⟩
  norm_num [sqSumSeg, seg]

/-- C10: for 0 < N below one full outer block (N < 16 for SSE4.1, N < 32
for the AVX variants) the vector loop body never executes (fullGroups = 0,
the loop returns the zero accumulators), the horizontal reduction of the
zero accumulators contributes exactly 0, and the variant's output is
identical to the generic scalar reference. -/
theorem C10_below_one_block_pure_tail (buf : List ℚ) (n : ℕ) (hn : 0 < n)
    (h : n ≤ buf.length) :
    (n < 16 →
      sixteenthPoints n = 0
      ∧ sse41Loop buf 0 (sixteenthPoints n) zero4 zero4 = some (zero4, zero4)
      ∧ hsum4 zero4 = 0
      ∧ volk_32f_stddev_and_mean_32f_x2_a_sse4_1 buf n
          = volk_32f_stddev_and_mean_32f_x2_generic buf n)
    ∧ (n < 32 →
      thirtySecondthPoints n = 0
      ∧ avxLoop buf 0 (thirtySecondthPoints n) zero8 zero8
          = some (zero8, zero8)
      ∧ hsum8 zero8 = 0
      ∧ volk_32f_stddev_and_mean_32f_x2_a_avx buf n
          = volk_32f_stddev_and_mean_32f_x2_generic buf n
      ∧ volk_32f_stddev_and_mean_32f_x2_u_avx buf n
          = volk_32f_stddev_and_mean_32f_x2_generic buf n) := by
  constructor
  · intro h16
    have e : sixteenthPoints n = 0 := Nat.div_eq_of_lt h16
    refine ⟨e, ?_, hsum4_zero4, a_sse4_1_eq_generic buf n h⟩
    rw [e]
    rfl
  · intro h32
    have e : thirtySecondthPoints n = 0 := Nat.div_eq_of_lt h32
    refine ⟨e, ?_, hsum8_zero8, a_avx_eq_generic buf n h,
      u_avx_eq_generic buf n h⟩
    rw [e]
    rfl

/-- C10 witness: with N = 5 on [1, 2, 3, 4, 5], fullGroups is 0 for both
SSE4.1 and AVX and the variants agree with the reference. -/
theorem C10_witness :
    (0 : ℕ) < 5 ∧ (5 : ℕ) ≤ ([1, 2, 3, 4, 5] : List ℚ).length
    ∧ (5 : ℕ) < 16 ∧ (5 : ℕ) < 32
    ∧ sixteenthPoints 5 = 0
    ∧ volk_32f_stddev_and_mean_32f_x2_a_sse4_1 [1, 2, 3, 4, 5] 5
        = volk_32f_stddev_and_mean_32f_x2_generic [1, 2, 3, 4, 5] 5
    ∧ thirtySecondthPoints 5 = 0
    ∧ volk_32f_stddev_and_mean_32f_x2_a_avx [1, 2, 3, 4, 5] 5
        = volk_32f_stddev_and_mean_32f_x2_generic [1, 2, 3, 4, 5] 5 := by
  have hm := C10_below_one_block_pure_tail [1, 2, 3, 4, 5] 5 (by norm_num)
    (by simp)
  exact ⟨by norm_num, by simp, by norm_num, by norm_num,
    (hm.1 (by norm_num)).1, (hm.1 (by norm_num)).2.2.2,
    (hm.2 (by norm_num)).1, (hm.2 (by norm_num)).2.2.2.1⟩

end Volk
